import Mathlib

/-!
Verification of the lab toolkit (behavior.py / video.py): a shallow
embedding of the filename parser, session matcher, clock aligner and
frame extractor, over exact rational arithmetic (ℚ models the float and
datetime arithmetic of the source; `none` models NaN / missing values).
-/

namespace MyLab

/-! ## numpy polynomial model

`np.polyval(p, x)` evaluates the coefficient list `p` (highest degree
first) at `x` by the Horner rule: `acc ← acc * x + c` over the coefficients.
-/

/-- `np.polyval` on a scalar: Horner fold over coefficients, highest degree
first, exactly as numpy computes it. -/
def np_polyval (p : List ℚ) (x : ℚ) : ℚ :=
  p.foldl (fun acc c => acc * x + c) 0

/-- Polynomial addition on coefficient lists in lowest-degree-first order. -/
def polyAdd : List ℚ → List ℚ → List ℚ
  | [], q => q
  | p, [] => p
  | a :: p, b :: q => (a + b) :: polyAdd p q

/-- Polynomial multiplication on coefficient lists in lowest-degree-first
order. -/
def polyMul : List ℚ → List ℚ → List ℚ
  | [], _ => []
  | a :: p, q => polyAdd (q.map (fun c => a * c)) (0 :: polyMul p q)

/-- Evaluation of a lowest-degree-first coefficient list. -/
def evalLow : List ℚ → ℚ → ℚ
  | [], _ => 0
  | c :: p, t => c + t * evalLow p t

/-- `np.polyval(np.poly1d(p), q)` where the point is itself a polynomial:
the same Horner fold, with the accumulator living in the polynomial ring.
`p` is in numpy (highest-first) order as in the source; the polynomial
argument `q` and the result are lowest-degree-first coefficient lists. -/
def np_polyval_poly (p : List ℚ) (q : List ℚ) : List ℚ :=
  p.foldl (fun acc c => polyAdd (polyMul acc q) [c]) []

/-- `combined_fit = np.polyval(np.poly1d(new_fit), np.poly1d(initial_guess))`
from `generate_mplayer_guesses_and_sync` (behavior.py line 139); both fits
are first-degree `(slope, intercept)` pairs, and `[g.2, g.1]` is
`poly1d(initial_guess)` written lowest-degree-first. -/
def combined_fit (new_fit initial_guess : ℚ × ℚ) : List ℚ :=
  np_polyval_poly [new_fit.1, new_fit.2] [initial_guess.2, initial_guess.1]

/-! ## Clock aligner refit (behavior.py lines 126-139) -/

/-- `np.polyfit(x, y, deg=1)`: the least-squares line through the points,
in closed form over ℚ (slope, intercept). -/
def polyfit1 (xs ys : List ℚ) : ℚ × ℚ :=
  let n : ℚ := xs.length
  let sx := xs.sum
  let sy := ys.sum
  let sxx := (xs.map (fun x => x * x)).sum
  let sxy := ((xs.zip ys).map (fun p => p.1 * p.2)).sum
  let d := n * sxx - sx * sx
  ((n * sxy - sx * sy) / d, (sxx * sy - sx * sxy) / d)

/-- Pointwise difference of two series, as numpy broadcasts `a - b`. -/
def vecSub (a b : List ℚ) : List ℚ :=
  (a.zip b).map (fun p => p.1 - p.2)

/-- `resids = np.polyval(new_fit, test_times.values) - user_results`
(behavior.py line 135), with `new_fit = np.polyfit(test_times, user_results, 1)`. -/
def resids_code (test_times user_results : List ℚ) : List ℚ :=
  let nf := polyfit1 test_times user_results
  vecSub (test_times.map (fun x => np_polyval [nf.1, nf.2] x)) user_results

/-- Modelled from the spec sentence "residuals (observed-minus-predicted)":
for each reference point, the user-supplied video time minus the newly fit
polynomial evaluated at the guessed time. Stated for comparison with
`resids_code`, which is the translation of the source. -/
def resids_spec (test_times user_results : List ℚ) : List ℚ :=
  let nf := polyfit1 test_times user_results
  (test_times.zip user_results).map
    (fun p => p.2 - np_polyval [nf.1, nf.2] p.1)

/-- Outcome of the refit phase of `generate_mplayer_guesses_and_sync`. -/
inductive SyncOutcome where
  | noUserResults : SyncOutcome
  | lengthWarning (expected got : Nat) : SyncOutcome
  | fitted (combined : List ℚ) (resids : List ℚ) : SyncOutcome
  deriving Repr, DecidableEq

/-- The refit phase of `generate_mplayer_guesses_and_sync` (behavior.py
lines 126-139): return early when no user results are given; warn and
return (no fit) when their count differs from `N`; otherwise fit and
compose with the initial guess. -/
def sync_refit (test_times : List ℚ) (user_results : Option (List ℚ))
    (N : Nat) (initial_guess : ℚ × ℚ) : SyncOutcome :=
  match user_results with
  | none => .noUserResults
  | some ur =>
    if ur.length ≠ N then
      .lengthWarning N ur.length
    else
      let nf := polyfit1 test_times ur
      .fitted (combined_fit nf initial_guess) (resids_code test_times ur)

/-! ## Masking (behavior.py lines 370-373) -/

/-- `mask_by_buffer_from_end`: set to NaN every value below `buf` and every
value above `end_time - buf`; NaN entries compare false and stay NaN.
Series are lists of `Option ℚ`, `none` for NaN, index alignment kept by
mapping in place. -/
def mask_by_buffer_from_end (ser : List (Option ℚ)) (end_time buf : ℚ) :
    List (Option ℚ) :=
  ser.map (fun x =>
    match x with
    | none => none
    | some v =>
      if v < buf then none
      else if v > end_time - buf then none
      else some v)

/-! ## Session matcher (behavior.py lines 154-229) -/

/-- A behavior session record, times in seconds on ℚ. -/
structure BehaviorRec where
  rig : String
  dt_start : ℚ
  dt_end : ℚ
  deriving Repr, DecidableEq

/-- A video session record, times in seconds on ℚ. -/
structure VideoRec where
  rig : String
  dt_start : ℚ
  dt_end : ℚ
  deriving Repr, DecidableEq

/-- `earliest_end - latest_start` for one behavior/video pair:
`min(end_b, end_v) - max(start_b, start_v)` in seconds. -/
def overlap_sec (b : BehaviorRec) (v : VideoRec) : ℚ :=
  min b.dt_end v.dt_end - max b.dt_start v.dt_start

/-- pandas `Series.argmax` (alias of `idxmax`): the label of the first
occurrence of the maximum, `none` on an empty series (where pandas raises
`ValueError`). -/
def argmaxFirst : List (Nat × ℚ) → Option (Nat × ℚ)
  | [] => none
  | (i, x) :: rest =>
    match argmaxFirst rest with
    | none => some (i, x)
    | some (j, y) => if x < y then some (j, y) else some (i, x)

/-- The body of the matching loop of `search_for_behavior_and_video_files`
(behavior.py lines 202-223) for one behavior row: restrict to video rows
with the same rig (their labels in the full video frame kept), take the
argmax of the overlaps, and store `(index, overlap)` when the maximal
overlap is positive, the sentinel `(-1, 0)` otherwise. `none` models the
exception pandas raises when the restricted series is empty. -/
def match_one (vids : List VideoRec) (b : BehaviorRec) : Option (Int × ℚ) :=
  let cands := (vids.enum.filter (fun p => p.2.rig == b.rig)).map
    (fun p => (p.1, overlap_sec b p.2))
  match argmaxFirst cands with
  | none => none
  | some (i, ov) =>
    if ov > 0 then some ((i : Int), ov) else some (-1, 0)

/-! ## Behavior filename cleaning (behavior.py lines 11-18, 268-274) -/

/-- The official list of mice (behavior.py line 12). -/
def mice : List String :=
  ["AM03", "AM05", "KF13", "KM14", "KF16", "KF17", "KF18", "KF19",
   "KM24", "KM25"]

/-- The alias table (behavior.py lines 14-17). -/
def aliases : List (String × String) :=
  [("KF13A", "KF13"), ("AM03A", "AM03")]

/-- Python `str.upper` as applied by `Series.apply(str.upper)`: upcase
every character (mouse names are ASCII). -/
def pyUpper (s : String) : String := ⟨s.data.map Char.toUpper⟩

/-- pandas `Series.replace(aliases)` on one value: rewrite a value that is
a key of the alias table, leave any other value unchanged. -/
def applyAliases (s : String) : String :=
  match aliases.lookup s with
  | some t => t
  | none => s

/-- A parsed behavior record as far as cleaning is concerned. -/
structure MouseRec where
  mouse : String
  filename : String
  deriving Repr, DecidableEq

/-- The `clean=True` branch of `parse_behavior_filenames` (behavior.py
lines 268-274): upcase every mouse name, apply the alias table, then keep
only the records whose mouse is in the official list. -/
def clean_behavior_records (recs : List MouseRec) : List MouseRec :=
  let upped := recs.map (fun r => { r with mouse := pyUpper r.mouse })
  let aliased := upped.map (fun r => { r with mouse := applyAliases r.mouse })
  aliased.filter (fun r => mice.contains r.mouse)

/-! ## Video filename parsing and the probe cache (behavior.py lines 278-368) -/

/-- How `parse_video_filenames` can fail. `valueError` is the explicit
cache-consistency `ValueError` (line 301); `attributeError` models the
`AttributeError` raised by `cached_video_files_df.filename` when the cache
is `None` (line 309). -/
inductive PVError where
  | valueError : PVError
  | attributeError : PVError
  deriving Repr, DecidableEq

/-- The probing loop of `parse_video_filenames` (behavior.py lines
308-356), abstracted to the list of files it probes: every iteration first
evaluates `video_filename in cached_video_files_df.filename.values`, which
raises when the cache is `None`; with a cache, files already cached are
skipped and the rest are probed. (Filenames not matching the pattern are
skipped by the source; the model takes all given filenames as matching.) -/
def pvf_loop (cached : Option (List String)) :
    List String → Except PVError (List String)
  | [] => .ok []
  | f :: rest =>
    match cached with
    | none => .error .attributeError
    | some c =>
      if c.contains f then
        pvf_loop (some c) rest
      else
        match pvf_loop (some c) rest with
        | .error e => .error e
        | .ok probed => .ok (f :: probed)

/-- `parse_video_filenames` (behavior.py lines 298-368), abstracted to
its control flow: first the cache-consistency check — with a cache whose
filenames are not all in `video_filenames`, raise `ValueError` before any
probing — then the probing loop. Returns the list of probed files. -/
def parse_video_filenames (video_filenames : List String)
    (cached : Option (List String)) : Except PVError (List String) :=
  match cached with
  | some c =>
    if c.all (fun f => video_filenames.contains f) then
      pvf_loop (some c) video_filenames
    else
      .error .valueError
  | none => pvf_loop none video_filenames

/-! ## Frame extractor seek split (video.py lines 111-116) -/

/-- The `ffmpeg best` branch of `frame_dump`: split the seek into a coarse
part `max(0, frametime - subseek_cushion)` and the fine remainder. -/
def frame_dump_seek (frametime subseek_cushion : ℚ) : ℚ × ℚ :=
  let coarse := max 0 (frametime - subseek_cushion)
  (coarse, frametime - coarse)

/-! ## Theorems -/

/-- Claim C1: the combined correction of
`generate_mplayer_guesses_and_sync` is the composition new-fit-after-
initial-guess: for every behavior time `t` it maps `t` to `f (g t)`
where `g` is the initial guess and `f` the newly fit polynomial; and the
two composition orders disagree in general (witnessed at the generic
fits of the spec), so the combined correction is not `g (f t)`. -/
theorem combined_fit_composes_new_after_initial :
    (∀ f g : ℚ × ℚ, ∀ t : ℚ,
      evalLow (combined_fit f g) t
        = np_polyval [f.1, f.2] (np_polyval [g.1, g.2] t)) ∧
    (∃ f g : ℚ × ℚ, ∃ t : ℚ,
      np_polyval [f.1, f.2] (np_polyval [g.1, g.2] t)
        ≠ np_polyval [g.1, g.2] (np_polyval [f.1, f.2] t)) := by
  constructor
  · intro f g t
    simp [combined_fit, np_polyval_poly, np_polyval, polyAdd, polyMul,
      evalLow]
    ring
  · exact ⟨(51/50, -3/10), (9991/10000, 15/2), 0, by norm_num [np_polyval]⟩

/-- Claim C4, counterexample: at test times `[0,1,2,3]` and user results
`[0,0,0,4]` the residuals the code computes are not observed minus
predicted (they are its negation). -/
theorem resids_differ_from_observed_minus_predicted :
    resids_code [0, 1, 2, 3] [0, 0, 0, 4]
      ≠ resids_spec [0, 1, 2, 3] [0, 0, 0, 4] := by
  norm_num [resids_code, resids_spec, polyfit1, np_polyval, vecSub]

/-- Claim C4, amended: the residuals reported by
`generate_mplayer_guesses_and_sync` equal predicted minus observed — for
each reference point, the newly fit polynomial at the guessed time minus
the user-supplied video time. -/
theorem resids_are_predicted_minus_observed (tt ur : List ℚ)
    (_h : tt.length = ur.length) :
    resids_code tt ur = (tt.zip ur).map
      (fun p =>
        np_polyval [(polyfit1 tt ur).1, (polyfit1 tt ur).2] p.1 - p.2) := by
  simp [resids_code, vecSub, List.zip_map_left, List.map_map, Prod.map]

/-- Witness for the amended Claim C4 at a concrete refit. -/
theorem resids_are_predicted_minus_observed_witness :
    ([(0:ℚ), 1, 2, 3].length = [(0:ℚ), 0, 0, 4].length) ∧
    resids_code [0, 1, 2, 3] [0, 0, 0, 4]
      = (([(0:ℚ), 1, 2, 3]).zip [0, 0, 0, 4]).map
        (fun p =>
          np_polyval [(polyfit1 [0, 1, 2, 3] [0, 0, 0, 4]).1,
            (polyfit1 [0, 1, 2, 3] [0, 0, 0, 4]).2] p.1 - p.2) :=
  ⟨rfl, resids_are_predicted_minus_observed [0, 1, 2, 3] [0, 0, 0, 4] rfl⟩

/-- `argmaxFirst` returns `none` exactly on the empty series. -/
theorem argmaxFirst_eq_none {l : List (Nat × ℚ)} :
    argmaxFirst l = none ↔ l = [] := by
  constructor
  · intro h
    cases l with
    | nil => rfl
    | cons a rest =>
      obtain ⟨i, x⟩ := a
      simp only [argmaxFirst] at h
      cases hrest : argmaxFirst rest with
      | none => rw [hrest] at h; exact absurd h (by simp)
      | some p =>
        obtain ⟨j, y⟩ := p
        rw [hrest] at h
        by_cases hxy : x < y
        · simp [hxy] at h
        · simp [hxy] at h
  · intro h; subst h; rfl

/-- `argmaxFirst` returns a member of the series whose value bounds every
value of the series (the first occurrence of the maximum). -/
theorem argmaxFirst_spec {l : List (Nat × ℚ)} {i : Nat} {x : ℚ}
    (h : argmaxFirst l = some (i, x)) :
    (i, x) ∈ l ∧ ∀ p ∈ l, p.2 ≤ x := by
  induction l generalizing i x with
  | nil => simp [argmaxFirst] at h
  | cons a rest ih =>
    obtain ⟨a1, a2⟩ := a
    simp only [argmaxFirst] at h
    cases hrest : argmaxFirst rest with
    | none =>
      rw [hrest] at h
      have hr : rest = [] := argmaxFirst_eq_none.mp hrest
      subst hr
      obtain ⟨h1, h2⟩ := Prod.mk.injEq .. ▸ (Option.some.injEq .. ▸ h)
      subst h1; subst h2
      exact ⟨List.mem_singleton_self _, by simp⟩
    | some p =>
      obtain ⟨j, y⟩ := p
      rw [hrest] at h
      obtain ⟨hmem, hmax⟩ := ih hrest
      by_cases hxy : a2 < y
      · simp only [if_pos hxy] at h
        obtain ⟨h1, h2⟩ := Prod.mk.injEq .. ▸ (Option.some.injEq .. ▸ h)
        subst h1; subst h2
        refine ⟨List.mem_cons_of_mem _ hmem, ?_⟩
        intro p hp
        rcases List.mem_cons.mp hp with hp | hp
        · subst hp; exact le_of_lt hxy
        · exact hmax p hp
      · simp only [if_neg hxy] at h
        obtain ⟨h1, h2⟩ := Prod.mk.injEq .. ▸ (Option.some.injEq .. ▸ h)
        subst h1; subst h2
        refine ⟨List.mem_cons_self _ _, ?_⟩
        intro p hp
        rcases List.mem_cons.mp hp with hp | hp
        · subst hp; exact le_refl _
        · exact le_trans (hmax p hp) (le_of_not_lt hxy)

/-- Claim C2: with at least one video on the rig of the behavior record,
the matcher annotates the record with the index of a video of that rig
whose overlap `min(end_b, end_v) - max(start_b, start_v)` bounds the
overlap of every video of that rig; a positive maximal overlap is stored
with its index, a maximal overlap `≤ 0` leaves the no-match sentinel
`(-1, 0)`. -/
theorem matcher_selects_max_overlap (vids : List VideoRec)
    (b : BehaviorRec) (h : ∃ v ∈ vids, v.rig = b.rig) :
    ∃ (i : Nat) (v : VideoRec), vids[i]? = some v ∧ v.rig = b.rig ∧
      (∀ (j : Nat) (w : VideoRec), vids[j]? = some w → w.rig = b.rig →
        overlap_sec b w ≤ overlap_sec b v) ∧
      (0 < overlap_sec b v →
        match_one vids b = some ((i : Int), overlap_sec b v)) ∧
      (overlap_sec b v ≤ 0 → match_one vids b = some (-1, 0)) := by
  classical
  set cands := (vids.enum.filter (fun p => p.2.rig == b.rig)).map
    (fun p => (p.1, overlap_sec b p.2)) with hcands
  have mem_cands : ∀ (i : Nat) (ov : ℚ), (i, ov) ∈ cands ↔
      ∃ v, vids[i]? = some v ∧ v.rig = b.rig ∧ ov = overlap_sec b v := by
    intro i ov
    simp only [hcands, List.mem_map, List.mem_filter]
    constructor
    · rintro ⟨⟨i', v⟩, ⟨hen, hrig⟩, heq⟩
      obtain ⟨h1, h2⟩ := Prod.mk.injEq .. ▸ heq
      subst h1
      exact ⟨v, List.mk_mem_enum_iff_getElem?.mp hen, by
        simpa using hrig, h2.symm⟩
    · rintro ⟨v, hget, hrig, hov⟩
      exact ⟨(i, v), ⟨List.mk_mem_enum_iff_getElem?.mpr hget, by
        simpa using hrig⟩, by simp [hov]⟩
  have hne : cands ≠ [] := by
    obtain ⟨v, hv, hrig⟩ := h
    obtain ⟨i, hget⟩ := List.mem_iff_getElem?.mp hv
    intro hnil
    have : (i, overlap_sec b v) ∈ cands :=
      (mem_cands i (overlap_sec b v)).mpr ⟨v, hget, hrig, rfl⟩
    rw [hnil] at this
    exact List.not_mem_nil _ this
  obtain ⟨⟨i, ov⟩, hmax⟩ :
      ∃ p, argmaxFirst cands = some p := by
    cases hc : argmaxFirst cands with
    | none => exact absurd (argmaxFirst_eq_none.mp hc) hne
    | some p => exact ⟨p, rfl⟩
  obtain ⟨hmem, hbound⟩ := argmaxFirst_spec hmax
  obtain ⟨v, hget, hrig, hov⟩ := (mem_cands i ov).mp hmem
  subst hov
  refine ⟨i, v, hget, hrig, ?_, ?_, ?_⟩
  · intro j w hgetj hrigj
    exact hbound (j, overlap_sec b w)
      ((mem_cands j (overlap_sec b w)).mpr ⟨w, hgetj, hrigj, rfl⟩)
  · intro hpos
    simp only [match_one, ← hcands, hmax]
    rw [if_pos hpos]
  · intro hle
    simp only [match_one, ← hcands, hmax]
    rw [if_neg (not_lt.mpr hle)]

/-- Witness for Claim C2: two videos, the behavior record on rig `L1`. -/
theorem matcher_selects_max_overlap_witness :
    (∃ v ∈ ([⟨"L1", 0, 3600⟩, ⟨"L2", 10000, 13600⟩] : List VideoRec),
      v.rig = (⟨"L1", 500, 3800⟩ : BehaviorRec).rig) ∧
    (∃ (i : Nat) (v : VideoRec),
      ([⟨"L1", 0, 3600⟩, ⟨"L2", 10000, 13600⟩] : List VideoRec)[i]?
          = some v ∧
      v.rig = (⟨"L1", 500, 3800⟩ : BehaviorRec).rig ∧
      (∀ (j : Nat) (w : VideoRec),
        ([⟨"L1", 0, 3600⟩, ⟨"L2", 10000, 13600⟩] : List VideoRec)[j]?
            = some w →
        w.rig = (⟨"L1", 500, 3800⟩ : BehaviorRec).rig →
        overlap_sec ⟨"L1", 500, 3800⟩ w ≤ overlap_sec ⟨"L1", 500, 3800⟩ v) ∧
      (0 < overlap_sec ⟨"L1", 500, 3800⟩ v →
        match_one [⟨"L1", 0, 3600⟩, ⟨"L2", 10000, 13600⟩] ⟨"L1", 500, 3800⟩
          = some ((i : Int), overlap_sec ⟨"L1", 500, 3800⟩ v)) ∧
      (overlap_sec ⟨"L1", 500, 3800⟩ v ≤ 0 →
        match_one [⟨"L1", 0, 3600⟩, ⟨"L2", 10000, 13600⟩] ⟨"L1", 500, 3800⟩
          = some (-1, 0))) :=
  ⟨⟨⟨"L1", 0, 3600⟩, by simp, rfl⟩,
    matcher_selects_max_overlap _ _ ⟨⟨"L1", 0, 3600⟩, by simp, rfl⟩⟩

/-- Claim C5: when `user_results` is supplied with a length different
from `N`, `generate_mplayer_guesses_and_sync` warns and returns without
fitting — the outcome is the warning, never a fitted correction. -/
theorem length_mismatch_aborts_refit (tt ur : List ℚ) (N : Nat)
    (g : ℚ × ℚ) (h : ur.length ≠ N) :
    sync_refit tt (some ur) N g = .lengthWarning N ur.length ∧
    ∀ c r, sync_refit tt (some ur) N g ≠ .fitted c r := by
  have he : sync_refit tt (some ur) N g = .lengthWarning N ur.length := by
    simp [sync_refit, h]
  exact ⟨he, fun c r hf => by simp [he] at hf⟩

/-- Witness for Claim C5: two user results against four requested. -/
theorem length_mismatch_aborts_refit_witness :
    ([(1:ℚ), 2].length ≠ 4) ∧
    (sync_refit [0, 1, 2, 3] (some [1, 2]) 4 (1, 0)
        = .lengthWarning 4 2 ∧
      ∀ c r, sync_refit [0, 1, 2, 3] (some [1, 2]) 4 (1, 0)
        ≠ .fitted c r) :=
  ⟨by decide, length_mismatch_aborts_refit [0, 1, 2, 3] [1, 2] 4 (1, 0)
    (by decide)⟩

/-- Claim C3 (code behavior at the failing input): a behavior record on
rig `L3` with no `L3` video gives `none` — the model of the `ValueError`
that `overlap.argmax()` raises on an empty series — not the sentinel
no-match record the spec promises. -/
theorem matcher_errors_when_rig_has_no_videos :
    match_one [⟨"L1", 0, 3600⟩] ⟨"L3", 0, 100⟩ = none := rfl

/-- Claim C8 (code behavior at the failing input): called without a
cache on a non-empty list of filenames, `parse_video_filenames`
dereferences the `None` cache inside its loop (line 309) and raises
`AttributeError` instead of probing the files. -/
theorem parse_video_filenames_crashes_without_cache :
    parse_video_filenames ["a.mp4"] none = .error .attributeError := rfl

/-- Claim C10, counterexample: at `frametime = 0` (which is `≥ 0`) and
`subseek_cushion = -1`, the fine seek is negative, so the claim fails
for this cushion. -/
theorem seek_split_fails_for_negative_cushion :
    (0:ℚ) ≤ 0 ∧ (frame_dump_seek 0 (-1)).2 < 0 := by
  norm_num [frame_dump_seek]

/-- Claim C10, amended: for every `frametime ≥ 0` and every
`subseek_cushion ≥ 0`, the `ffmpeg best` split of `frame_dump` has a
nonnegative coarse part, a nonnegative fine part, and the two sum to the
requested frametime exactly. -/
theorem seek_split_sums_to_frametime (ft c : ℚ) (hft : 0 ≤ ft)
    (hc : 0 ≤ c) :
    0 ≤ (frame_dump_seek ft c).1 ∧ 0 ≤ (frame_dump_seek ft c).2 ∧
      (frame_dump_seek ft c).1 + (frame_dump_seek ft c).2 = ft := by
  refine ⟨le_max_left _ _, ?_, by simp [frame_dump_seek]⟩
  simp only [frame_dump_seek]
  rcases le_total (ft - c) 0 with h | h
  · rw [max_eq_left h]; linarith
  · rw [max_eq_right h]; linarith

/-- Witness for the amended Claim C10 at `frametime = 5`, cushion `20`. -/
theorem seek_split_sums_to_frametime_witness :
    ((0:ℚ) ≤ 5 ∧ (0:ℚ) ≤ 20) ∧
    (0 ≤ (frame_dump_seek 5 20).1 ∧ 0 ≤ (frame_dump_seek 5 20).2 ∧
      (frame_dump_seek 5 20).1 + (frame_dump_seek 5 20).2 = 5) :=
  ⟨⟨by decide, by decide⟩,
    seek_split_sums_to_frametime 5 20 (by decide) (by decide)⟩

/-- Claim C6: `mask_by_buffer_from_end` keeps the length of the series
(masking sets entries to NaN, it does not discard them), and every entry
of the result is NaN or a value `v` with `buf ≤ v ≤ end_time - buf`. -/
theorem mask_keeps_length_and_bounds (ser : List (Option ℚ))
    (end_time buf : ℚ) (x : Option ℚ)
    (hx : x ∈ mask_by_buffer_from_end ser end_time buf) :
    (mask_by_buffer_from_end ser end_time buf).length = ser.length ∧
    (x = none ∨ ∃ v, x = some v ∧ buf ≤ v ∧ v ≤ end_time - buf) := by
  refine ⟨by simp [mask_by_buffer_from_end], ?_⟩
  simp only [mask_by_buffer_from_end, List.mem_map] at hx
  obtain ⟨y, hy, hxy⟩ := hx
  cases y with
  | none => exact Or.inl hxy.symm
  | some v =>
    by_cases h1 : v < buf
    · simp only [if_pos h1] at hxy
      exact Or.inl hxy.symm
    · by_cases h2 : v > end_time - buf
      · simp only [if_neg h1, if_pos h2] at hxy
        exact Or.inl hxy.symm
      · simp only [if_neg h1, if_neg h2] at hxy
        exact Or.inr ⟨v, hxy.symm, le_of_not_lt h1, le_of_not_lt h2⟩

/-- Witness for Claim C6: the kept entry `50` of a four-entry series with
`end_time = 100`, `buf = 10`. -/
theorem mask_keeps_length_and_bounds_witness :
    (some (50:ℚ) ∈
      mask_by_buffer_from_end [some 5, none, some 50, some 95] 100 10) ∧
    ((mask_by_buffer_from_end [some 5, none, some 50, some 95] 100 10).length
        = ([some 5, none, some 50, some 95] : List (Option ℚ)).length ∧
      (some (50:ℚ) = none ∨
        ∃ v, some (50:ℚ) = some v ∧ 10 ≤ v ∧ v ≤ 100 - 10)) :=
  ⟨by norm_num [mask_by_buffer_from_end],
    mask_keeps_length_and_bounds [some 5, none, some 50, some 95] 100 10
      (some 50) (by norm_num [mask_by_buffer_from_end])⟩

/-- Claim C7: under `clean=True` a behavior record survives
`parse_behavior_filenames` exactly when its upcased, alias-mapped mouse
name is in the official list; in particular `kf13a` upcases to `KF13A`,
alias-maps to `KF13`, and its record is retained. -/
theorem clean_normalizes_and_filters_mice (recs : List MouseRec)
    (r : MouseRec) (h : r ∈ recs) :
    (({ r with mouse := applyAliases (pyUpper r.mouse) } : MouseRec)
        ∈ clean_behavior_records recs
      ↔ applyAliases (pyUpper r.mouse) ∈ mice) ∧
    pyUpper "kf13a" = "KF13A" ∧
    applyAliases (pyUpper "kf13a") = "KF13" ∧
    clean_behavior_records [⟨"kf13a", "f"⟩] = [⟨"KF13", "f"⟩] := by
  refine ⟨?_, by decide, by decide, by decide⟩
  constructor
  · intro hmem
    have hc := (List.mem_filter.mp hmem).2
    simpa using hc
  · intro hin
    apply List.mem_filter.mpr
    refine ⟨?_, by simpa using hin⟩
    simp only [clean_behavior_records, List.map_map]
    exact List.mem_map_of_mem _ h

/-- Witness for Claim C7 on the one-record list with mouse `kf13a`. -/
theorem clean_normalizes_and_filters_mice_witness :
    ((⟨"kf13a", "f1"⟩ : MouseRec) ∈ [(⟨"kf13a", "f1"⟩ : MouseRec)]) ∧
    ((({ mouse := applyAliases (pyUpper "kf13a"), filename := "f1" } :
          MouseRec) ∈ clean_behavior_records [⟨"kf13a", "f1"⟩]
        ↔ applyAliases (pyUpper "kf13a") ∈ mice) ∧
      pyUpper "kf13a" = "KF13A" ∧
      applyAliases (pyUpper "kf13a") = "KF13" ∧
      clean_behavior_records [⟨"kf13a", "f"⟩] = [⟨"KF13", "f"⟩]) :=
  ⟨List.mem_singleton_self _,
    clean_normalizes_and_filters_mice [⟨"kf13a", "f1"⟩] ⟨"kf13a", "f1"⟩
      (List.mem_singleton_self _)⟩

/-- Claim C9: a supplied cache that lists a filename absent from
`video_filenames` makes `parse_video_filenames` raise `ValueError`
before the probing loop runs: the whole call returns the error, no file
is probed. -/
theorem cache_inconsistency_raises_value_error (fns c : List String)
    (h : ∃ f ∈ c, f ∉ fns) :
    parse_video_filenames fns (some c) = .error .valueError := by
  obtain ⟨f, hf, hnot⟩ := h
  simp only [parse_video_filenames]
  rw [if_neg]
  intro hall
  rw [List.all_eq_true] at hall
  exact hnot (by simpa using hall f hf)

/-- Witness for Claim C9: a cache naming `b.mp4` against the listing
`[a.mp4]`. -/
theorem cache_inconsistency_raises_value_error_witness :
    (∃ f ∈ ["b.mp4"], f ∉ ["a.mp4"]) ∧
    parse_video_filenames ["a.mp4"] (some ["b.mp4"]) = .error .valueError :=
  ⟨⟨"b.mp4", by simp, by simp⟩,
    cache_inconsistency_raises_value_error ["a.mp4"] ["b.mp4"]
      ⟨"b.mp4", by simp, by simp⟩⟩

end MyLab
